import Mathlib

/-!
Verification of the movie recommendation engine in `app.py`.

The embedding covers the core classes:

* `TMDBPosterProvider.get_poster_url` — one poster lookup over HTTP with a
  per-call timeout, catching every exception and substituting a fixed
  placeholder URL on any failure (`get_poster_url` below, over an abstract
  `HttpResult` describing the outcome of the network call);
* the batch image resolution performed with
  `executor.map(get_poster_url, movie_ids)` (`resolveImages` below, with the
  external world modelled as a function from batch position to `HttpResult`);
* `MovieRecommender.get_recommendations` — title lookup, similarity ranking,
  and enrichment (`get_recommendations` below, in `Except` so that any Python
  exception that the source does NOT catch is visible as an `.error`);
* `MovieRecommender.get_movie_list`.

Similarity scores are embedded as `Int`: the source only ever compares scores,
so any linear order is a faithful carrier for the ranking logic.

Python's `sorted(..., key=lambda x: x[1], reverse=True)` is a stable sort,
descending on the key; it is embedded as `List.mergeSort` with the comparator
`b.2 ≤ a.2`, which is sorted and stable in exactly the same sense.
-/

namespace MovieRec

/-- A row of the `movies` dataframe: a stable identifier and a display title. -/
structure Movie where
  movie_id : Nat
  title : String
deriving DecidableEq, Repr

instance : Inhabited Movie := ⟨⟨0, ""⟩⟩

/-- Outcome of one HTTP poster lookup (`requests.get` + `.json()`), as seen by
`get_poster_url`:
* `json path?` — the body parsed as a JSON object; `path?` is the value of its
  optional `poster_path` field (`none` when the field is absent or null);
* `malformed` — the body failed to parse, so `response.json()` raised;
* `failure` — the request itself timed out or raised a transport exception. -/
inductive HttpResult where
  | json (poster_path : Option String)
  | malformed
  | failure
deriving DecidableEq, Repr

/-- `self.image_base` of `TMDBPosterProvider`. -/
def image_base : String := "https://image.tmdb.org/t/p/w500/"

/-- The fixed fallback returned when the poster lookup fails in any way. -/
def fallback_url : String := "https://via.placeholder.com/500x750?text=No+Image"

/-- `TMDBPosterProvider.get_poster_url`. The request URL is built from the
movie id and the API key, but the returned value depends only on the response:
if the JSON object carries a truthy `poster_path` (in Python, a non-empty
string), the image base is prepended to it; in every other case — missing or
falsy field, unparsable body, timeout, transport error — the `try`/`except`
and the `if path:` guard produce the fallback placeholder. -/
def get_poster_url : HttpResult → String
  | .json (some path) => if path = "" then fallback_url else image_base ++ path
  | .json none => fallback_url
  | .malformed => fallback_url
  | .failure => fallback_url

/-- The enrichment step
`list(executor.map(self.poster_provider.get_poster_url, movie_ids))`:
one lookup per identifier, joined back in input order. `world i` is the
outcome of the network call issued for position `i` of the batch (the call
that requests the poster of `movie_ids[i]`); distinct calls may behave
independently even for equal identifiers. -/
def resolveImages (world : Nat → HttpResult) (movie_ids : List Nat) : List String :=
  movie_ids.enum.map (fun iv => get_poster_url (world iv.1))

/-- A Python exception that escapes the statement raising it. -/
inductive PyErr where
  | indexError
deriving DecidableEq, Repr

/-- The recommender's immutable state: the `movies` dataframe (one `Movie` per
row, positionally indexed) and the `similarity` matrix (one row per movie). -/
structure MovieRecommender where
  movies : List Movie
  similarity : List (List Int)

/-- `self.movies[self.movies['title'] == movie_name].index[0]`: the first
positional index whose title equals the query, `none` when the filter is
empty and `.index[0]` raises `IndexError` (caught by the caller). -/
def pyFindIndex (movies : List Movie) (movie_name : String) : Option Nat :=
  movies.findIdx? (fun m => m.title = movie_name)

/-- Python's `sorted(pairs, reverse=True, key=lambda x: x[1])`: a stable sort,
descending on the second component. -/
def pySortedDescBySnd (l : List (Nat × Int)) : List (Nat × Int) :=
  l.mergeSort (fun a b => decide (b.2 ≤ a.2))

/-- `distances = sorted(list(enumerate(self.similarity[idx])), reverse=True,
key=lambda x: x[1])` for a given matrix row. -/
def distancesFor (row : List Int) : List (Nat × Int) :=
  pySortedDescBySnd row.enum

/-- `top_indices = [i[0] for i in distances[1:6]]` (Python slice `[1:6]` is
drop 1, take 5). -/
def topIndicesFor (row : List Int) : List Nat :=
  (((distancesFor row).drop 1).take 5).map Prod.fst

/-- `self.similarity[idx]`: numpy row access, raising `IndexError` (not caught
anywhere) when `idx` is out of range. -/
def npRow (similarity : List (List Int)) (idx : Nat) : Except PyErr (List Int) :=
  match similarity[idx]? with
  | some row => .ok row
  | none => .error .indexError

/-- `self.movies.iloc[top_indices]`: positional fancy indexing, raising
`IndexError` (not caught anywhere) if any position is out of range. -/
def ilocList (movies : List Movie) : List Nat → Except PyErr (List Movie)
  | [] => .ok []
  | i :: rest =>
    match movies[i]? with
    | none => .error .indexError
    | some m =>
      match ilocList movies rest with
      | .error e => .error e
      | .ok ms => .ok (m :: ms)

/-- `MovieRecommender.get_recommendations`. The `try`/`except IndexError`
around the title lookup becomes the `none` branch returning `([], [])`; the
remaining steps run outside any handler, so an out-of-range access there is an
uncaught `.error`. On success it returns the pair
`(names, posters)` with `names = movies.iloc[top_indices]['title']`,
`movie_ids = movies.iloc[top_indices]['movie_id']`, and
`posters = executor.map(get_poster_url, movie_ids)` in input order. -/
def get_recommendations (rec : MovieRecommender) (world : Nat → HttpResult)
    (movie_name : String) : Except PyErr (List String × List String) :=
  match pyFindIndex rec.movies movie_name with
  | none => .ok ([], [])
  | some idx =>
    match npRow rec.similarity idx with
    | .error e => .error e
    | .ok row =>
      match ilocList rec.movies (topIndicesFor row) with
      | .error e => .error e
      | .ok top_movies =>
        .ok (top_movies.map Movie.title,
             resolveImages world (top_movies.map Movie.movie_id))

/-- `MovieRecommender.get_movie_list`: all titles in catalog order. -/
def get_movie_list (rec : MovieRecommender) : List String :=
  rec.movies.map Movie.title

/-- The rows the engine extracts with `iloc[top_indices]` for a given matrix
row: each surviving index mapped back to its catalog item. -/
def topMoviesOf (rec : MovieRecommender) (row : List Int) : List Movie :=
  (topIndicesFor row).map (fun i => rec.movies.getD i default)

/-- Sample snapshot from the spec's worked example (§8), scores scaled to
integers: six movies, row for "A" = [100, 90, 90, 30, 10, 5]. -/
def sampleRec : MovieRecommender :=
  { movies := [⟨1, "A"⟩, ⟨2, "B"⟩, ⟨3, "C"⟩, ⟨4, "D"⟩, ⟨5, "E"⟩, ⟨6, "F"⟩],
    similarity := [[100, 90, 90, 30, 10, 5],
                   [90, 100, 1, 2, 3, 4],
                   [90, 1, 100, 2, 3, 4],
                   [30, 2, 2, 100, 3, 4],
                   [10, 3, 3, 3, 100, 4],
                   [5, 4, 4, 4, 4, 100]] }

/-- A catalog of three movies with a 3×3 matrix, for the small-catalog case. -/
def smallRec : MovieRecommender :=
  { movies := [⟨1, "A"⟩, ⟨2, "B"⟩, ⟨3, "C"⟩],
    similarity := [[100, 90, 10], [90, 100, 20], [10, 20, 100]] }

/-- A snapshot where the query's self-similarity ties the row maximum with an
item of smaller catalog index: row of "C" is [1, 0, 1]. -/
def cEx3 : MovieRecommender :=
  { movies := [⟨1, "A"⟩, ⟨2, "B"⟩, ⟨3, "C"⟩],
    similarity := [[1, 0, 1], [0, 1, 0], [1, 0, 1]] }

/-- Shape invariant assumed of the loaded snapshot: the similarity matrix is
N×N with N the catalog length. -/
def WellFormed (rec : MovieRecommender) : Prop :=
  rec.similarity.length = rec.movies.length ∧
    ∀ row ∈ rec.similarity, row.length = rec.movies.length

end MovieRec

namespace MovieRec

/-! ### Basic facts about the enrichment step -/

theorem length_resolveImages (world : Nat → HttpResult) (ids : List Nat) :
    (resolveImages world ids).length = ids.length := by
  simp [resolveImages]

theorem getElem?_resolveImages (world : Nat → HttpResult) (ids : List Nat) (i : Nat) :
    (resolveImages world ids)[i]? = (ids[i]?).map (fun _ => get_poster_url (world i)) := by
  simp only [resolveImages, List.getElem?_map, List.getElem?_enum]
  cases ids[i]? <;> simp

/-- Every non-success outcome of one lookup resolves to the fallback URL. -/
theorem get_poster_url_of_failing {r : HttpResult}
    (h : r = .failure ∨ r = .malformed ∨ r = .json none) :
    get_poster_url r = fallback_url := by
  rcases h with h | h | h <;> subst h <;> rfl

/-! ### C-claims about the poster provider and the batch -/

/-- C10: a well-formed JSON response whose `poster_path` field is the empty
string (falsy in Python) resolves to the fallback placeholder, not to
`image_base ++ ""`; the composed URL `image_base ++ path` is returned
only for a present, non-empty path. -/
theorem poster_url_empty_path (r : HttpResult) :
    get_poster_url (HttpResult.json (some "")) = fallback_url ∧
    get_poster_url (HttpResult.json (some "")) ≠ image_base ++ "" ∧
    (get_poster_url r = fallback_url ∨
      ∃ path, r = HttpResult.json (some path) ∧ ¬path = "" ∧
        get_poster_url r = image_base ++ path) := by
  refine ⟨rfl, by decide, ?_⟩
  match r with
  | .failure => exact Or.inl rfl
  | .malformed => exact Or.inl rfl
  | .json none => exact Or.inl rfl
  | .json (some path) =>
    by_cases hp : path = ""
    · subst hp; exact Or.inl rfl
    · exact Or.inr ⟨path, rfl, hp, by simp [get_poster_url, hp]⟩

/-- C10 witness: the claim instantiated at the response
`{"poster_path": ""}`. -/
theorem poster_url_empty_path_witness :
    get_poster_url (HttpResult.json (some "")) = fallback_url ∧
    get_poster_url (HttpResult.json (some "")) ≠ image_base ++ "" ∧
    (get_poster_url (HttpResult.json (some "")) = fallback_url ∨
      ∃ path, HttpResult.json (some "") = HttpResult.json (some path) ∧ ¬path = "" ∧
        get_poster_url (HttpResult.json (some "")) = image_base ++ path) :=
  poster_url_empty_path (HttpResult.json (some ""))

/-- C5: if the lookup at position `i` of a batch times out, raises, returns a
malformed body, or returns JSON without the `poster_path` field, then position
`i` of the output is the fallback constant, and every other position is
exactly what it would have been had call `i` succeeded (`world'` is the same
world with call `i` replaced by any other outcome). -/
theorem enrichment_failure_isolated (world world' : Nat → HttpResult)
    (ids : List Nat) (i : Nat)
    (hfail : world i = .failure ∨ world i = .malformed ∨ world i = .json none)
    (hagree : ∀ j, j ≠ i → world j = world' j) :
    (∀ _ : i < ids.length, (resolveImages world ids)[i]? = some fallback_url) ∧
    ∀ j, j ≠ i → (resolveImages world ids)[j]? = (resolveImages world' ids)[j]? := by
  constructor
  · intro hi
    rw [getElem?_resolveImages, List.getElem?_eq_getElem hi]
    simp [get_poster_url_of_failing hfail]
  · intro j hj
    rw [getElem?_resolveImages, getElem?_resolveImages, hagree j hj]

/-- C5 witness: a three-element batch whose middle call times out. -/
theorem enrichment_failure_isolated_witness :
    ((fun k => if k = 1 then HttpResult.failure else HttpResult.json (some "p.jpg")) 1 =
        HttpResult.failure ∨
      (fun k => if k = 1 then HttpResult.failure else HttpResult.json (some "p.jpg")) 1 =
        HttpResult.malformed ∨
      (fun k => if k = 1 then HttpResult.failure else HttpResult.json (some "p.jpg")) 1 =
        HttpResult.json none) ∧
    ((∀ _ : 1 < [10, 20, 30].length,
        (resolveImages
          (fun k => if k = 1 then HttpResult.failure else HttpResult.json (some "p.jpg"))
          [10, 20, 30])[1]? = some fallback_url) ∧
      ∀ j, j ≠ 1 →
        (resolveImages
          (fun k => if k = 1 then HttpResult.failure else HttpResult.json (some "p.jpg"))
          [10, 20, 30])[j]? =
        (resolveImages (fun _ => HttpResult.json (some "p.jpg")) [10, 20, 30])[j]?) :=
  ⟨Or.inl rfl,
    enrichment_failure_isolated _ _ [10, 20, 30] 1 (Or.inl rfl)
      (fun j hj => by simp [hj])⟩

/-- C6: the batch result has the same length as the input and position `i` of
the output is the resolution of the call issued for position `i` of the input,
independently of any completion order (the join of `executor.map` is
order-preserving by construction). -/
theorem enrichment_preserves_order (world : Nat → HttpResult) (ids : List Nat) :
    (resolveImages world ids).length = ids.length ∧
    ∀ i, i < ids.length →
      (resolveImages world ids)[i]? = some (get_poster_url (world i)) := by
  refine ⟨length_resolveImages world ids, fun i hi => ?_⟩
  rw [getElem?_resolveImages, List.getElem?_eq_getElem hi]
  rfl

/-- C6 witness: a concrete batch of three identifiers. -/
theorem enrichment_preserves_order_witness :
    (resolveImages (fun _ => HttpResult.json (some "p.jpg")) [10, 20, 30]).length =
      [10, 20, 30].length ∧
    ∀ i, i < [10, 20, 30].length →
      (resolveImages (fun _ => HttpResult.json (some "p.jpg")) [10, 20, 30])[i]? =
        some (get_poster_url ((fun _ => HttpResult.json (some "p.jpg")) i)) :=
  enrichment_preserves_order (fun _ => HttpResult.json (some "p.jpg")) [10, 20, 30]

/-! ### Lookup miss -/

/-- C2: a selection that is the title of no catalog item makes the filtered
frame empty, `.index[0]` raise `IndexError`, and the handler return the pair
of empty lists — no error escapes. -/
theorem recommend_absent (rec : MovieRecommender) (world : Nat → HttpResult)
    (movie_name : String)
    (habsent : ∀ m ∈ rec.movies, m.title ≠ movie_name) :
    get_recommendations rec world movie_name = .ok ([], []) := by
  have hnone : pyFindIndex rec.movies movie_name = none :=
    List.findIdx?_eq_none_iff.mpr (fun m hm => by simp [habsent m hm])
  simp [get_recommendations, hnone]

end MovieRec

namespace MovieRec

/-! ### The ranking pipeline -/

theorem pyFindIndex_lt_length {movies : List Movie} {movie_name : String} {idx : Nat}
    (h : pyFindIndex movies movie_name = some idx) : idx < movies.length :=
  (List.findIdx?_eq_some_iff_findIdx_eq.mp h).1

theorem pyFindIndex_of_mem {movies : List Movie} {movie_name : String}
    (m : Movie) (hm : m ∈ movies) (ht : m.title = movie_name) :
    ∃ idx, pyFindIndex movies movie_name = some idx := by
  unfold pyFindIndex
  exact ⟨_, List.findIdx?_eq_some_of_exists ⟨m, hm, by simp [ht]⟩⟩

theorem length_distancesFor (row : List Int) :
    (distancesFor row).length = row.length := by
  simp [distancesFor, pySortedDescBySnd]

theorem mem_enum_of_mem_distancesFor {row : List Int} {p : Nat × Int}
    (h : p ∈ distancesFor row) : p ∈ row.enum := by
  simpa [distancesFor, pySortedDescBySnd] using h

theorem length_topIndicesFor (row : List Int) :
    (topIndicesFor row).length = min 5 (row.length - 1) := by
  simp [topIndicesFor, length_distancesFor]

theorem lt_length_of_mem_topIndicesFor {row : List Int} {i : Nat}
    (h : i ∈ topIndicesFor row) : i < row.length := by
  simp only [topIndicesFor, List.mem_map] at h
  obtain ⟨p, hp, rfl⟩ := h
  have h1 : p ∈ (distancesFor row).drop 1 := (List.take_sublist _ _).subset hp
  have h2 : p ∈ distancesFor row := (List.drop_sublist _ _).subset h1
  exact List.fst_lt_of_mem_enum (mem_enum_of_mem_distancesFor h2)

theorem ilocList_eq_ok {movies : List Movie} {idxs : List Nat}
    (h : ∀ i ∈ idxs, i < movies.length) :
    ilocList movies idxs = .ok (idxs.map (fun i => movies.getD i default)) := by
  induction idxs with
  | nil => rfl
  | cons i rest ih =>
    have hi : i < movies.length := h i (List.mem_cons_self i rest)
    have hget : movies[i]? = some (movies.getD i default) := by
      rw [List.getElem?_eq_getElem hi]
      simp [List.getD_eq_getElem?_getD, List.getElem?_eq_getElem hi]
    rw [ilocList, hget, ih (fun j hj => h j (List.mem_cons_of_mem i hj))]
    simp

theorem mem_movies_of_mem_topMoviesOf {rec : MovieRecommender} {row : List Int}
    (hrow : row.length = rec.movies.length) {m : Movie}
    (hm : m ∈ topMoviesOf rec row) : m ∈ rec.movies := by
  simp only [topMoviesOf, List.mem_map] at hm
  obtain ⟨i, hi, rfl⟩ := hm
  have hlt : i < rec.movies.length := hrow ▸ lt_length_of_mem_topIndicesFor hi
  have hgd : rec.movies.getD i default = rec.movies.get ⟨i, hlt⟩ := by
    simp [List.getD_eq_getElem?_getD, List.getElem?_eq_getElem hlt]
  rw [hgd]
  exact List.get_mem rec.movies i hlt

/-- The success path of `get_recommendations` in closed form: when the title
is found at index `idx` and the snapshot is well-formed, the engine returns
the titles and the enriched posters of `topMoviesOf` applied to row `idx`. -/
theorem get_recommendations_found (rec : MovieRecommender) (world : Nat → HttpResult)
    (movie_name : String) (idx : Nat) (hwf : WellFormed rec)
    (hfind : pyFindIndex rec.movies movie_name = some idx) :
    ∃ row, rec.similarity[idx]? = some row ∧ row.length = rec.movies.length ∧
      get_recommendations rec world movie_name =
        .ok ((topMoviesOf rec row).map Movie.title,
             resolveImages world ((topMoviesOf rec row).map Movie.movie_id)) := by
  obtain ⟨hdim, hrows⟩ := hwf
  have hidx : idx < rec.similarity.length := hdim ▸ pyFindIndex_lt_length hfind
  obtain ⟨row, hrow⟩ : ∃ row, rec.similarity[idx]? = some row :=
    ⟨rec.similarity[idx], List.getElem?_eq_getElem hidx⟩
  have hrl : row.length = rec.movies.length := hrows row (List.getElem?_mem hrow)
  have hbound : ∀ i ∈ topIndicesFor row, i < rec.movies.length :=
    fun i hi => hrl ▸ lt_length_of_mem_topIndicesFor hi
  refine ⟨row, hrow, hrl, ?_⟩
  simp [get_recommendations, hfind, npRow, hrow, ilocList_eq_ok hbound, topMoviesOf]

end MovieRec

namespace MovieRec

/-- C7: with a well-formed snapshot, `get_recommendations` returns normally on
every selection and for every behaviour of the image service — the only two
raise sites are the guarded `.index[0]` and the fully-caught poster lookup. -/
theorem recommend_never_raises (rec : MovieRecommender) (world : Nat → HttpResult)
    (movie_name : String) (hwf : WellFormed rec) :
    ∃ r, get_recommendations rec world movie_name = .ok r := by
  cases hfind : pyFindIndex rec.movies movie_name with
  | none => exact ⟨([], []), by simp [get_recommendations, hfind]⟩
  | some idx =>
    obtain ⟨row, _, _, h⟩ := get_recommendations_found rec world movie_name idx hwf hfind
    exact ⟨_, h⟩

/-- C7 witness: the sample snapshot, a present title and an absent one would
both do; instantiated at selection "A" with every lookup timing out. -/
theorem recommend_never_raises_witness :
    WellFormed sampleRec ∧
    ∃ r, get_recommendations sampleRec (fun _ => HttpResult.failure) "A" = .ok r :=
  ⟨⟨rfl, by decide⟩,
    recommend_never_raises sampleRec (fun _ => HttpResult.failure) "A" ⟨rfl, by decide⟩⟩

/-- C8: the `names` component of the result does not depend on the behaviour
of the external image service — two calls with the same selection over the
same snapshot agree on it (and on the error component, if any). -/
theorem recommend_names_deterministic (rec : MovieRecommender) (movie_name : String)
    (world world' : Nat → HttpResult) :
    (get_recommendations rec world movie_name).map Prod.fst =
      (get_recommendations rec world' movie_name).map Prod.fst := by
  cases hfind : pyFindIndex rec.movies movie_name with
  | none => simp [get_recommendations, hfind]
  | some idx =>
    cases hrow : npRow rec.similarity idx with
    | error e => simp [get_recommendations, hfind, hrow]
    | ok row =>
      cases hiloc : ilocList rec.movies (topIndicesFor row) with
      | error e => simp [get_recommendations, hfind, hrow, hiloc]
      | ok tops => simp [get_recommendations, hfind, hrow, hiloc, Except.map]

/-- C1: catalog larger than 5 and a selection that is some item's title:
the engine returns exactly 5 names and 5 poster URLs, and the two sequences
are index-aligned — both are projections of the same ranked item list, and
position `i` of the posters is the resolution of the lookup issued for the
identifier of the item named at position `i`. -/
theorem recommend_five (rec : MovieRecommender) (world : Nat → HttpResult)
    (movie_name : String) (hwf : WellFormed rec) (hN : 5 < rec.movies.length)
    (hsel : ∃ m ∈ rec.movies, m.title = movie_name) :
    ∃ tops : List Movie,
      tops.length = 5 ∧ (∀ m ∈ tops, m ∈ rec.movies) ∧
      get_recommendations rec world movie_name =
        .ok (tops.map Movie.title, resolveImages world (tops.map Movie.movie_id)) ∧
      (tops.map Movie.title).length = 5 ∧
      (resolveImages world (tops.map Movie.movie_id)).length = 5 ∧
      ∀ i, i < 5 →
        (tops.map Movie.title)[i]? = (tops[i]?).map Movie.title ∧
        (resolveImages world (tops.map Movie.movie_id))[i]? =
          some (get_poster_url (world i)) := by
  obtain ⟨m, hm, ht⟩ := hsel
  obtain ⟨idx, hfind⟩ := pyFindIndex_of_mem m hm ht
  obtain ⟨row, hrow, hrl, heq⟩ :=
    get_recommendations_found rec world movie_name idx hwf hfind
  have htops : (topMoviesOf rec row).length = 5 := by
    simp only [topMoviesOf, List.length_map, length_topIndicesFor, hrl]
    omega
  refine ⟨topMoviesOf rec row, htops,
    fun m hm2 => mem_movies_of_mem_topMoviesOf hrl hm2, heq, ?_, ?_, ?_⟩
  · simp [htops]
  · simp [length_resolveImages, htops]
  · intro i hi
    refine ⟨List.getElem?_map Movie.title (topMoviesOf rec row) i, ?_⟩
    have hi2 : i < ((topMoviesOf rec row).map Movie.movie_id).length := by
      simp [htops]; omega
    rw [getElem?_resolveImages, List.getElem?_eq_getElem hi2]
    rfl

end MovieRec

namespace MovieRec

/-- C2 witness: a selection matching no catalog title on the sample snapshot. -/
theorem recommend_absent_witness :
    (∀ m ∈ sampleRec.movies, m.title ≠ "Zzz") ∧
    get_recommendations sampleRec (fun _ => HttpResult.failure) "Zzz" = .ok ([], []) :=
  ⟨by decide,
    recommend_absent sampleRec (fun _ => HttpResult.failure) "Zzz" (by decide)⟩

/-- C1 witness: the spec's worked example — catalog of 6, selection "A",
every poster lookup timing out. -/
theorem recommend_five_witness :
    WellFormed sampleRec ∧ 5 < sampleRec.movies.length ∧
    (∃ m ∈ sampleRec.movies, m.title = "A") ∧
    ∃ tops : List Movie,
      tops.length = 5 ∧ (∀ m ∈ tops, m ∈ sampleRec.movies) ∧
      get_recommendations sampleRec (fun _ => HttpResult.failure) "A" =
        .ok (tops.map Movie.title,
             resolveImages (fun _ => HttpResult.failure) (tops.map Movie.movie_id)) ∧
      (tops.map Movie.title).length = 5 ∧
      (resolveImages (fun _ => HttpResult.failure) (tops.map Movie.movie_id)).length = 5 ∧
      ∀ i, i < 5 →
        (tops.map Movie.title)[i]? = (tops[i]?).map Movie.title ∧
        (resolveImages (fun _ => HttpResult.failure) (tops.map Movie.movie_id))[i]? =
          some (get_poster_url ((fun _ => HttpResult.failure) i)) :=
  ⟨⟨rfl, by decide⟩, by decide, ⟨⟨1, "A"⟩, by decide, rfl⟩,
    recommend_five sampleRec (fun _ => HttpResult.failure) "A" ⟨rfl, by decide⟩
      (by decide) ⟨⟨1, "A"⟩, by decide, rfl⟩⟩

/-- C9: for a catalog of size N with 1 < N ≤ 5 and a present selection, the
slice `distances[1:6]` has only `min 5 (N-1) = N-1` entries, so the engine
returns that many names and that many posters instead of failing. -/
theorem recommend_small_catalog (rec : MovieRecommender) (world : Nat → HttpResult)
    (movie_name : String) (hwf : WellFormed rec)
    (h1 : 1 < rec.movies.length) (h5 : rec.movies.length ≤ 5)
    (hsel : ∃ m ∈ rec.movies, m.title = movie_name) :
    ∃ names posters,
      get_recommendations rec world movie_name = .ok (names, posters) ∧
      names.length = min 5 (rec.movies.length - 1) ∧
      posters.length = min 5 (rec.movies.length - 1) ∧
      min 5 (rec.movies.length - 1) = rec.movies.length - 1 := by
  obtain ⟨m, hm, ht⟩ := hsel
  obtain ⟨idx, hfind⟩ := pyFindIndex_of_mem m hm ht
  obtain ⟨row, hrow, hrl, heq⟩ :=
    get_recommendations_found rec world movie_name idx hwf hfind
  refine ⟨_, _, heq, ?_, ?_, by omega⟩
  · simp [topMoviesOf, length_topIndicesFor, hrl]
  · simp [length_resolveImages, topMoviesOf, length_topIndicesFor, hrl]

/-- C9 witness: the three-movie snapshot, selection "A": 2 = min 5 (3-1)
names and posters. -/
theorem recommend_small_catalog_witness :
    WellFormed smallRec ∧ 1 < smallRec.movies.length ∧ smallRec.movies.length ≤ 5 ∧
    (∃ m ∈ smallRec.movies, m.title = "A") ∧
    ∃ names posters,
      get_recommendations smallRec (fun _ => HttpResult.failure) "A" = .ok (names, posters) ∧
      names.length = min 5 (smallRec.movies.length - 1) ∧
      posters.length = min 5 (smallRec.movies.length - 1) ∧
      min 5 (smallRec.movies.length - 1) = smallRec.movies.length - 1 :=
  ⟨⟨rfl, by decide⟩, by decide, by decide, ⟨⟨1, "A"⟩, by decide, rfl⟩,
    recommend_small_catalog smallRec (fun _ => HttpResult.failure) "A" ⟨rfl, by decide⟩
      (by decide) (by decide) ⟨⟨1, "A"⟩, by decide, rfl⟩⟩

end MovieRec

namespace MovieRec

/-! ### Stability and sortedness of the ranking -/

theorem pair_get_sublist {α : Type} (l : List α) (i j : Nat) (hij : i < j)
    (hj : j < l.length) :
    List.Sublist [l.get ⟨i, Nat.lt_trans hij hj⟩, l.get ⟨j, hj⟩] l := by
  have hi : i < l.length := Nat.lt_trans hij hj
  have hmem : l.get ⟨j, hj⟩ ∈ l.drop (i + 1) := by
    rw [List.mem_iff_getElem?]
    refine ⟨j - (i + 1), ?_⟩
    rw [List.getElem?_drop]
    have hsum : i + 1 + (j - (i + 1)) = j := by omega
    rw [hsum, List.getElem?_eq_getElem hj]
    rfl
  have h1 : List.Sublist [l.get ⟨i, hi⟩, l.get ⟨j, hj⟩] (l.get ⟨i, hi⟩ :: l.drop (i + 1)) :=
    (List.singleton_sublist.mpr hmem).cons₂ _
  have h2 : l.get ⟨i, hi⟩ :: l.drop (i + 1) = l.drop i := by
    simpa using List.getElem_cons_drop l i hi
  exact (h2 ▸ h1).trans (List.drop_sublist i l)

/-- Stability of the Python sort: if column `i` comes before column `j` in the
row and scores `row[j] ≤ row[i]`, the enumerated pair of `i` still precedes
the pair of `j` in the sorted `distances`. -/
theorem pair_sublist_distancesFor (row : List Int) (i j : Nat) (hij : i < j)
    (hj : j < row.length)
    (hle : row.get ⟨j, hj⟩ ≤ row.get ⟨i, Nat.lt_trans hij hj⟩) :
    List.Sublist [(i, row.get ⟨i, Nat.lt_trans hij hj⟩), (j, row.get ⟨j, hj⟩)] (distancesFor row) := by
  have hi : i < row.length := Nat.lt_trans hij hj
  have hie : i < row.enum.length := by simpa using hi
  have hje : j < row.enum.length := by simpa using hj
  have hsub0 : List.Sublist [row.enum.get ⟨i, hie⟩, row.enum.get ⟨j, hje⟩] row.enum :=
    pair_get_sublist row.enum i j hij hje
  have hgi : row.enum.get ⟨i, hie⟩ = (i, row.get ⟨i, hi⟩) := by
    simpa using List.getElem_enum row i hie
  have hgj : row.enum.get ⟨j, hje⟩ = (j, row.get ⟨j, hj⟩) := by
    simpa using List.getElem_enum row j hje
  rw [hgi, hgj] at hsub0
  unfold distancesFor pySortedDescBySnd
  refine List.pair_sublist_mergeSort ?_ ?_ ?_ hsub0
  · intro a b c h1 h2
    simp only [decide_eq_true_eq] at h1 h2 ⊢
    exact le_trans h2 h1
  · intro a b
    rcases Int.le_total b.2 a.2 with h | h <;> simp [h]
  · simpa using hle

/-- C4: ranking tie-break — two columns with equal similarity scores appear in
`distances` with the smaller original column index first (the Python sort is
stable and descending on score only). -/
theorem tie_break_by_index (row : List Int) (i j : Nat) (hij : i < j)
    (hj : j < row.length)
    (heq : row.get ⟨i, Nat.lt_trans hij hj⟩ = row.get ⟨j, hj⟩) :
    List.Sublist [(i, row.get ⟨i, Nat.lt_trans hij hj⟩), (j, row.get ⟨j, hj⟩)] (distancesFor row) :=
  pair_sublist_distancesFor row i j hij hj (le_of_eq heq.symm)

/-- C4 witness: row `[5, 3, 3]`, tied columns 1 and 2. -/
theorem tie_break_by_index_witness :
    1 < 2 ∧ 2 < ([5, 3, 3] : List Int).length ∧
    List.Sublist [(1, (3 : Int)), (2, (3 : Int))] (distancesFor [5, 3, 3]) :=
  ⟨by decide, by decide,
    tie_break_by_index [5, 3, 3] 1 2 (by decide) (by decide) (by decide)⟩

end MovieRec

namespace MovieRec

theorem enum_nodup {α : Type} (l : List α) : l.enum.Nodup :=
  List.Nodup.of_map Prod.fst
    (by rw [List.enum_map_fst]; exact List.nodup_range l.length)

theorem distancesFor_nodup (row : List Int) : (distancesFor row).Nodup :=
  ((List.mergeSort_perm row.enum _).nodup_iff).mpr (enum_nodup row)

theorem mem_enum_unique {α : Type} {l : List α} {i : Nat} {x y : α}
    (hx : (i, x) ∈ l.enum) (hy : (i, y) ∈ l.enum) : x = y := by
  have h1 := List.mk_mem_enum_iff_getElem?.mp hx
  have h2 := List.mk_mem_enum_iff_getElem?.mp hy
  rw [h1] at h2
  exact Option.some.inj h2

theorem distancesFor_pairwise (row : List Int) :
    (distancesFor row).Pairwise (fun a b => decide (b.2 ≤ a.2) = true) := by
  unfold distancesFor pySortedDescBySnd
  refine List.sorted_mergeSort ?_ ?_ row.enum
  · intro a b c h1 h2
    simp only [decide_eq_true_eq] at h1 h2 ⊢
    exact le_trans h2 h1
  · intro a b
    rcases Int.le_total b.2 a.2 with h | h <;> simp [h]

/-- If the query's score is the row maximum and the query index is the first
row position attaining it, the query's pair is the head of the sorted
`distances` — the entry that `distances[1:6]` drops. -/
theorem distancesFor_head (row : List Int) (idx : Nat) (hidx : idx < row.length)
    (hmax : ∀ j, (hj : j < row.length) → row.get ⟨j, hj⟩ ≤ row.get ⟨idx, hidx⟩)
    (hfirst : ∀ j, (hj : j < row.length) →
      row.get ⟨j, hj⟩ = row.get ⟨idx, hidx⟩ → idx ≤ j) :
    (distancesFor row).head? = some (idx, row.get ⟨idx, hidx⟩) := by
  have hperm : List.Perm (distancesFor row) row.enum := List.mergeSort_perm row.enum _
  have hlen : (distancesFor row).length = row.length := length_distancesFor row
  obtain ⟨h, t, hd⟩ : ∃ h t, distancesFor row = h :: t := by
    cases hcase : distancesFor row with
    | nil => rw [hcase] at hlen; simp at hlen; omega
    | cons h t => exact ⟨h, t, rfl⟩
  have hnd : (h :: t).Nodup := hd ▸ distancesFor_nodup row
  have hhe : h ∈ row.enum := hperm.subset (hd ▸ List.mem_cons_self h t)
  have hh1 : h.1 < row.length := List.fst_lt_of_mem_enum hhe
  have hh2 : h.2 = row.get ⟨h.1, hh1⟩ := by
    simpa using List.snd_eq_of_mem_enum hhe
  have hqe : (idx, row.get ⟨idx, hidx⟩) ∈ row.enum := by
    rw [List.mk_mem_enum_iff_getElem?, List.getElem?_eq_getElem hidx]
    rfl
  have hfst : h.1 = idx := by
    by_contra hne
    rcases Nat.lt_or_ge h.1 idx with hlt | hge
    · -- an earlier column at the head: its score would tie the maximum,
      -- contradicting that `idx` is the first position attaining it
      have hq_mem : (idx, row.get ⟨idx, hidx⟩) ∈ h :: t :=
        hd ▸ hperm.mem_iff.mpr hqe
      have hq_t : (idx, row.get ⟨idx, hidx⟩) ∈ t := by
        rcases List.mem_cons.mp hq_mem with he | ht
        · exact absurd (congrArg Prod.fst he).symm hne
        · exact ht
      have hsorted : (h :: t).Pairwise (fun a b => decide (b.2 ≤ a.2) = true) :=
        hd ▸ distancesFor_pairwise row
      have hle := (List.pairwise_cons.mp hsorted).1 _ hq_t
      simp only [decide_eq_true_eq] at hle
      rw [hh2] at hle
      have heq2 : row.get ⟨h.1, hh1⟩ = row.get ⟨idx, hidx⟩ :=
        le_antisymm (hmax h.1 hh1) hle
      have := hfirst h.1 hh1 heq2
      omega
    · -- a later column at the head: stability keeps the query's pair first
      have hlt2 : idx < h.1 := by omega
      have hpair := pair_sublist_distancesFor row idx h.1 hlt2 hh1 (hmax h.1 hh1)
      rw [hd] at hpair
      have hhh : (h.1, row.get ⟨h.1, hh1⟩) = h := by
        cases h with
        | mk a b => simp only at hh2 ⊢; rw [hh2]
      rw [hhh] at hpair
      rcases List.sublist_cons_iff.mp hpair with hcase | ⟨r, hr, hrt⟩
      · have hht : h ∈ t := hcase.subset (by simp)
        exact absurd hht (List.nodup_cons.mp hnd).1
      · have hheadeq : (idx, row.get ⟨idx, hidx⟩) = h := by
          have hh := congrArg List.head? hr
          simpa using hh
        exact hne (congrArg Prod.fst hheadeq).symm
  have hfinal : h = (idx, row.get ⟨idx, hidx⟩) := by
    cases h with
    | mk a b =>
      simp only at hfst hh2
      subst hfst
      rw [hh2]
  rw [hd, hfinal]
  rfl

end MovieRec

namespace MovieRec

/-- C3 (amended): the ranked result excludes the query item whenever its
self-similarity score is the row maximum AND the query index is the first row
position attaining that maximum (in particular whenever the self score is
strictly maximal). `distances[1:6]` drops exactly the query's pair then. -/
theorem rank_excludes_query (row : List Int) (idx : Nat) (hidx : idx < row.length)
    (hmax : ∀ j, (hj : j < row.length) → row.get ⟨j, hj⟩ ≤ row.get ⟨idx, hidx⟩)
    (hfirst : ∀ j, (hj : j < row.length) →
      row.get ⟨j, hj⟩ = row.get ⟨idx, hidx⟩ → idx ≤ j) :
    idx ∉ topIndicesFor row := by
  have hhead := distancesFor_head row idx hidx hmax hfirst
  obtain ⟨t, hd⟩ : ∃ t, distancesFor row = (idx, row.get ⟨idx, hidx⟩) :: t := by
    cases hcase : distancesFor row with
    | nil => rw [hcase] at hhead; simp at hhead
    | cons h t =>
      rw [hcase] at hhead
      simp only [List.head?_cons, Option.some.injEq] at hhead
      exact ⟨t, by rw [hhead]⟩
  intro hmem
  rw [topIndicesFor, hd] at hmem
  simp only [List.drop_succ_cons, List.drop_zero, List.mem_map] at hmem
  obtain ⟨p, hp, hpfst⟩ := hmem
  have hpt : p ∈ t := (List.take_sublist 5 t).subset hp
  have hpd : p ∈ distancesFor row := by
    rw [hd]; exact List.mem_cons_of_mem _ hpt
  have hpe : p ∈ row.enum := mem_enum_of_mem_distancesFor hpd
  have hqe : (idx, row.get ⟨idx, hidx⟩) ∈ row.enum := by
    rw [List.mk_mem_enum_iff_getElem?, List.getElem?_eq_getElem hidx]
    rfl
  have hpq : p = (idx, row.get ⟨idx, hidx⟩) := by
    cases p with
    | mk a b =>
      simp only at hpfst
      subst hpfst
      exact Prod.ext rfl (mem_enum_unique hpe hqe)
  rw [hpq] at hpt
  have hnd : ((idx, row.get ⟨idx, hidx⟩) :: t).Nodup := hd ▸ distancesFor_nodup row
  exact (List.nodup_cons.mp hnd).1 hpt

/-- C3 witness for the amended claim: row `[5, 3, 3]`, query at index 0 whose
self score 5 is the strict maximum; index 0 does not survive the slice. -/
theorem rank_excludes_query_witness :
    0 < ([5, 3, 3] : List Int).length ∧
    (∀ j, (hj : j < ([5, 3, 3] : List Int).length) →
      ([5, 3, 3] : List Int).get ⟨j, hj⟩ ≤ ([5, 3, 3] : List Int).get ⟨0, by decide⟩) ∧
    (∀ j, (hj : j < ([5, 3, 3] : List Int).length) →
      ([5, 3, 3] : List Int).get ⟨j, hj⟩ = ([5, 3, 3] : List Int).get ⟨0, by decide⟩ →
        0 ≤ j) ∧
    0 ∉ topIndicesFor [5, 3, 3] :=
  ⟨by decide, by decide, by decide,
    rank_excludes_query [5, 3, 3] 0 (by decide) (by decide) (by decide)⟩

end MovieRec

namespace MovieRec

/-- C3 counterexample: on `cEx3` the selection "C" (catalog index 2) has
self-similarity 1, the maximum of its row [1, 0, 1]; yet index 0 ties that
maximum, the sort places `(0, 1)` first, `distances[0]` drops it instead of
the query's pair, and the returned ranking contains the query item "C"
itself in first position. -/
theorem rank_excludes_query_counterexample :
    pyFindIndex cEx3.movies "C" = some 2 ∧
    cEx3.similarity.getD 2 [] = [1, 0, 1] ∧
    ([1, 0, 1] : List Int).all (fun s => decide (s ≤ 1)) = true ∧
    2 ∈ topIndicesFor [1, 0, 1] ∧
    get_recommendations cEx3 (fun _ => HttpResult.failure) "C" =
      .ok (["C", "B"], [fallback_url, fallback_url]) := by
  have hsort : distancesFor [1, 0, 1] = [(0, 1), (2, 1), (1, 0)] := by
    simp [distancesFor, pySortedDescBySnd, List.enum, List.enumFrom,
      List.mergeSort, List.splitInTwo, List.splitAt_eq, List.merge]
  have htop : topIndicesFor [1, 0, 1] = [2, 1] := by
    rw [topIndicesFor, hsort]
    rfl
  have hfind : pyFindIndex cEx3.movies "C" = some 2 := by rfl
  have hrow : npRow cEx3.similarity 2 = .ok [1, 0, 1] := by rfl
  refine ⟨hfind, by rfl, by decide, by rw [htop]; decide, ?_⟩
  simp only [get_recommendations, hfind, hrow, htop]
  rfl

end MovieRec
